import Mathlib

-- Shallow embedding of the DBI Assembly Generation System core
-- (modules/assembly/processing.py, class AssemblyProcessor).
-- Numeric cell values (pandas floats after coercion/fillna) are modelled as
-- rationals; fallible lookups return Option; the per-product loop body and the
-- transfer loop body become per-item functions composed with List.filterMap.

set_option autoImplicit false

-- The batteries arithmetic on `Rat` is sealed for the elaborator; reopen it so
-- `decide` can evaluate the embedding on concrete inputs.
attribute [local semireducible] Rat.add Rat.mul Rat.inv Rat.sub Rat.ofScientific

namespace DBI

/-- One row of the availability report after `_clean_data` (numeric coercion of
`OnHand`/`Available` with NaN replaced by 0). -/
structure InventoryRecord where
  sku : String
  location : String
  onHand : ℚ
  available : ℚ
  productName : String
deriving DecidableEq

/-- One row of the replenishment/sales table after `_clean_data` (SKU string
already normalized, `AVG sales/mo` coerced to a number with NaN replaced by 0). -/
structure SalesRecord where
  sku : String
  avgMonthlySales : ℚ
deriving DecidableEq

/-- One row of the BOM table after `_clean_data` (`Quantity` coerced with NaN
replaced by 0). -/
structure BomEntry where
  productSku : String
  componentSku : String
  quantity : ℚ
deriving DecidableEq

/-- `self.TARGET_DAYS_INVENTORY = 30`. -/
def TARGET_DAYS_INVENTORY : ℚ := 30

/-- Python `int(x)` on a float: truncation toward zero. -/
def pyInt (q : ℚ) : ℤ := if q < 0 then Int.ceil q else Int.floor q

/-- Round-half-to-even on a rational, the idealization of Python `round` on the
scaled value. -/
def roundHalfEven (q : ℚ) : ℤ :=
  if q - Int.floor q < 1/2 then Int.floor q
  else if (1:ℚ)/2 < q - Int.floor q then Int.floor q + 1
  else if Int.floor q % 2 = 0 then Int.floor q else Int.floor q + 1

/-- Python `round(q, d)` idealized over the rationals. -/
def pyRound (q : ℚ) (d : ℕ) : ℚ := (roundHalfEven (q * (10 ^ d : ℚ))) / (10 ^ d : ℚ)

/-- Does the char list `s` start with the char list `t`? -/
def charsStart : List Char → List Char → Bool
  | _, [] => true
  | [], _ :: _ => false
  | a :: s, b :: t => a == b && charsStart s t

/-- Does the char list `s` contain `t` as a contiguous run (pandas
`.str.contains(t)` on plain text)? -/
def charsContain (s t : List Char) : Bool :=
  match s with
  | [] => t.isEmpty
  | c :: rest => charsStart (c :: rest) t || charsContain rest t

/-- `pat` occurs inside `s` as a substring. -/
def hasSub (s pat : String) : Bool := charsContain s.data pat.data

/-- The primary-location filter of `analyze_assembly_capacity` step 2: the
location string contains both `NC` and `Main`. -/
def isNCMainLoc (loc : String) : Bool := hasSub loc "NC" && hasSub loc "Main"

/-- `current_stock`: sum of `Available` over rows of the availability table for
this SKU whose location contains both `NC` and `Main` (lines 96-100). -/
def sumAvailableNCMain (A : List InventoryRecord) (sku : String) : ℚ :=
  ((A.filter fun r => r.sku == sku && isNCMainLoc r.location).map (·.available)).sum

/-- Total `Available` for a SKU across all locations (lines 168-170). -/
def totalAvailable (A : List InventoryRecord) (sku : String) : ℚ :=
  ((A.filter fun r => r.sku == sku).map (·.available)).sum

/-- `Available` in the single location `NC - Main` (lines 291-294 of
`analyze_transfer_needs`). -/
def mainQtyFor (A : List InventoryRecord) (sku : String) : ℚ :=
  ((A.filter fun r => r.sku == sku && r.location == "NC - Main").map (·.available)).sum

/-- First `ProductName` found in the availability table for this SKU, else
`Unknown` (lines 103-106). -/
def productNameFor (A : List InventoryRecord) (sku : String) : String :=
  match A.find? (fun r => r.sku == sku) with
  | some r => r.productName
  | none => "Unknown"

/-- `AVG sales/mo` of the first sales row for this SKU, else 0 (the
`sales_data.empty` checks at lines 109-115 and 297-298). -/
def avgFor (S : List SalesRecord) (sku : String) : ℚ :=
  match S.find? (fun r => r.sku == sku) with
  | some r => r.avgMonthlySales
  | none => 0

/-- Steps 2-3 of `analyze_assembly_capacity` (lines 108-132): resolve sales
velocity and decide whether the product needs assembly.  Returns `none` when
the SKU is skipped; otherwise `(avg_monthly_sales, daily_sales,
days_of_inventory)` with `none` standing for `float('inf')`. -/
def velocityInfo (S : List SalesRecord) (stock : ℚ) (sku : String) :
    Option (ℚ × ℚ × Option ℚ) :=
  let avg := avgFor S sku
  if 0 < avg then
    if stock / (avg / 30) < TARGET_DAYS_INVENTORY then
      some (avg, avg / 30, some (stock / (avg / 30)))
    else none
  else if stock ≤ 5 then some (1, 1/30, none)
  else none

/-- Step 4 (lines 141-156): association-list update that sums a quantity into
the requirement mapping, mirroring the Python dict accumulation. -/
def addReq : List (String × ℚ) → String → ℚ → List (String × ℚ)
  | [], sku, q => [(sku, q)]
  | (s, q0) :: rest, sku, q =>
      if s == sku then (s, q0 + q) :: rest else (s, q0) :: addReq rest sku q

/-- `str(component_sku).startswith('SV')` (line 149). -/
def isServiceSku (s : String) : Bool := charsStart s.data "SV".data

/-- Step 4 (lines 137-156): aggregate component requirements for a product,
dropping non-positive quantities and service components, summing duplicate
component rows. -/
def aggregateRequirements (B : List BomEntry) (p : String) : List (String × ℚ) :=
  (B.filter fun e => e.productSku == p).foldl
    (fun acc e =>
      if e.quantity ≤ 0 then acc
      else if isServiceSku e.componentSku then acc
      else addReq acc e.componentSku e.quantity) []

/-- A shortage record of step 5 (lines 174-179). -/
structure MissingComponent where
  sku : String
  required : ℚ
  available : ℚ
  shortage : ℚ
deriving DecidableEq

/-- The loop state of step 5 (lines 162-164): `can_assemble`, `min_assemblies`
(`none` standing for `float('inf')`), and the list of missing components. -/
structure FeasState where
  canAssemble : Bool
  minAssemblies : Option ℤ
  missing : List MissingComponent
deriving DecidableEq

/-- One iteration of the step-5 loop (lines 166-183). -/
def checkStep (A : List InventoryRecord) (st : FeasState) (req : String × ℚ) : FeasState :=
  let avail := totalAvailable A req.1
  if avail < req.2 then
    { canAssemble := false
      minAssemblies := st.minAssemblies
      missing := st.missing ++ [⟨req.1, req.2, avail, req.2 - avail⟩] }
  else
    { canAssemble := st.canAssemble
      minAssemblies := some (match st.minAssemblies with
        | none => Int.floor (avail / req.2)
        | some m => min m (Int.floor (avail / req.2)))
      missing := st.missing }

/-- Step 5 in full: fold the component check over the requirement mapping. -/
def checkComponents (A : List InventoryRecord) (reqs : List (String × ℚ)) : FeasState :=
  reqs.foldl (checkStep A) ⟨true, none, []⟩

/-- Accumulate one component floor into the running minimum, as the satisfied
branch of `checkStep` does. -/
def minFloorStep (A : List InventoryRecord) (acc : Option ℤ) (r : String × ℚ) : Option ℤ :=
  some (match acc with
    | none => Int.floor (totalAvailable A r.1 / r.2)
    | some m => min m (Int.floor (totalAvailable A r.1 / r.2)))

/-- The minimum over the requirement list of `int(available // required)`,
written independently of the feasibility flag; used to state what
`min_assemblies` equals when every component is satisfiable. -/
def minFloors (A : List InventoryRecord) (reqs : List (String × ℚ)) : Option ℤ :=
  reqs.foldl (minFloorStep A) none

/-- Step 6 (lines 187-193): recommended assembly quantity. -/
def recommendQty (daily stock : ℚ) (m : ℤ) : ℤ :=
  if 0 < daily then min (max 1 (pyInt (TARGET_DAYS_INVENTORY * daily - stock))) m
  else min 10 m

/-- An `assembly_ready` item (lines 196-205). -/
structure AssemblyCandidate where
  productSku : String
  productName : String
  quantityForAssembly : ℤ
  availableInNc : ℤ
  avgMonthlySales : ℚ
  daysOfInventory : ℚ
  maxPossibleAssemblies : ℤ
  componentsNeeded : ℕ
deriving DecidableEq

/-- A `cannot_assemble` item (lines 208-215) with the `avg_monthly_sales`
back-fill of lines 243-255 already applied. -/
structure UnassemblableCandidate where
  productSku : String
  productName : String
  missingComponents : List String
  componentDetails : List MissingComponent
  totalComponentsRequired : ℕ
  missingComponentsCount : ℕ
  avgMonthlySales : ℚ
deriving DecidableEq

/-- Build the `assembly_ready` dict of lines 196-205. -/
def mkReady (p name : String) (avg : ℚ) (days : Option ℚ) (stock : ℚ) (m q : ℤ)
    (nComps : ℕ) : AssemblyCandidate :=
  { productSku := p
    productName := name
    quantityForAssembly := q
    availableInNc := pyInt stock
    avgMonthlySales := pyRound avg 2
    daysOfInventory := match days with | some d => pyRound d 1 | none => 0
    maxPossibleAssemblies := m
    componentsNeeded := nComps }

/-- Build the `cannot_assemble` dict of lines 208-215, with the sales back-fill
of lines 243-255. -/
def mkBlocked (p name : String) (st : FeasState) (nReqs : ℕ) (avg : ℚ) :
    UnassemblableCandidate :=
  { productSku := p
    productName := name
    missingComponents := st.missing.map (·.sku)
    componentDetails := st.missing
    totalComponentsRequired := nReqs
    missingComponentsCount := st.missing.length
    avgMonthlySales := avg }

/-- Outcome of the per-product loop body: skipped via `continue`, appended to
`assembly_ready`, or appended to `cannot_assemble`. -/
inductive ProductResult where
  | skipped
  | ready (c : AssemblyCandidate)
  | blocked (c : UnassemblableCandidate)
deriving DecidableEq

/-- The body of the product loop of `analyze_assembly_capacity`
(lines 94-215) for one BOM product. -/
def evaluateProduct (A : List InventoryRecord) (S : List SalesRecord)
    (B : List BomEntry) (p : String) : ProductResult :=
  let stock := sumAvailableNCMain A p
  match velocityInfo S stock p with
  | none => ProductResult.skipped
  | some (avg, daily, days) =>
    let reqs := aggregateRequirements B p
    if reqs = [] then ProductResult.skipped
    else
      let st := checkComponents A reqs
      match st.minAssemblies with
      | none => ProductResult.blocked (mkBlocked p (productNameFor A p) st reqs.length (avgFor S p))
      | some m =>
        if st.canAssemble = true ∧ 0 < m then
          let q := recommendQty daily stock m
          if 0 < q then
            ProductResult.ready (mkReady p (productNameFor A p) avg days stock m q reqs.length)
          else ProductResult.skipped
        else ProductResult.blocked (mkBlocked p (productNameFor A p) st reqs.length (avgFor S p))

/-- The composite priority score of `assembly_priority` (lines 222-238),
computed from the stored output fields. -/
def assemblyPriority (c : AssemblyCandidate) : ℚ :=
  (if c.availableInNc < 0 then 1000
   else if c.availableInNc = 0 then 500
   else if c.daysOfInventory < 5 then 100
   else if c.daysOfInventory < 15 then 50
   else 10)
  + (c.quantityForAssembly : ℚ) + (c.maxPossibleAssemblies : ℚ) * (1/10)

/-- Stable insertion for a strict comparator: `x` goes before the first element
it strictly precedes, so equal-key elements keep their arrival order, as with
Python's stable `list.sort`. -/
def insertOrd {α : Type} (lt : α → α → Bool) (x : α) : List α → List α
  | [] => [x]
  | y :: ys => if lt x y then x :: y :: ys else y :: insertOrd lt x ys

/-- Stable sort by repeated insertion in arrival order. -/
def sortOrd {α : Type} (lt : α → α → Bool) (l : List α) : List α :=
  l.foldl (fun acc x => insertOrd lt x acc) []

/-- `assembly_ready.sort(key=assembly_priority, reverse=True)` (line 240):
descending by score, stable. -/
def sortReady (l : List AssemblyCandidate) : List AssemblyCandidate :=
  sortOrd (fun a b => decide (assemblyPriority b < assemblyPriority a)) l

/-- A `transfer_recommendations` item (lines 310-330). -/
structure TransferCandidate where
  sku : String
  productName : String
  qtyInArmory : ℤ
  qtyInMain : ℤ
  avgMonthlySales : ℚ
  daysSupplyInMain : ℚ
  suggestedTransfer : ℤ
deriving DecidableEq

/-- The body of the armory loop of `analyze_transfer_needs` (lines 282-330) for
one armory inventory row. -/
def transferForItem (A : List InventoryRecord) (S : List SalesRecord)
    (item : InventoryRecord) : Option TransferCandidate :=
  if item.available ≤ 0 then none
  else
    let mainQty := mainQtyFor A item.sku
    let avg := avgFor S item.sku
    if 0 < avg then
      let daily := avg / 30
      let daysSupply := mainQty / daily
      if daysSupply < TARGET_DAYS_INVENTORY then
        let suggested := min (pyInt (TARGET_DAYS_INVENTORY * daily - mainQty)) (pyInt item.available)
        if 0 < suggested then
          some { sku := item.sku
                 productName := item.productName
                 qtyInArmory := pyInt item.available
                 qtyInMain := pyInt mainQty
                 avgMonthlySales := pyRound avg 2
                 daysSupplyInMain := pyRound daysSupply 1
                 suggestedTransfer := suggested }
        else none
      else none
    else
      if mainQty = 0 ∧ 0 < item.available then
        some { sku := item.sku
               productName := item.productName
               qtyInArmory := pyInt item.available
               qtyInMain := pyInt mainQty
               avgMonthlySales := 0
               daysSupplyInMain := 0
               suggestedTransfer := min 10 (pyInt item.available) }
      else none

/-- The transfer sort key comparison (line 333): ascending lexicographic on
`(days_supply_in_main, -avg_monthly_sales)`, strict part. -/
def transferLt (a b : TransferCandidate) : Bool :=
  decide (a.daysSupplyInMain < b.daysSupplyInMain) ||
    (decide (a.daysSupplyInMain = b.daysSupplyInMain) &&
      decide (-a.avgMonthlySales < -b.avgMonthlySales))

/-- `analyze_transfer_needs` (lines 270-335). -/
def analyzeTransferNeeds (A : List InventoryRecord) (S : List SalesRecord) :
    List TransferCandidate :=
  sortOrd transferLt
    ((A.filter fun r => r.location == "NC - Armory").filterMap (transferForItem A S))

/-- `bom_df['Product SKU'].unique()` (line 82): first-occurrence order. -/
def uniqueKeepOrder (l : List String) : List String :=
  l.foldl (fun acc s => if s ∈ acc then acc else acc ++ [s]) []

/-- Project the `assembly_ready` appends out of the loop outcomes. -/
def readyOf : ProductResult → Option AssemblyCandidate
  | ProductResult.ready c => some c
  | _ => none

/-- Project the `cannot_assemble` appends out of the loop outcomes. -/
def blockedOf : ProductResult → Option UnassemblableCandidate
  | ProductResult.blocked c => some c
  | _ => none

/-- The character `=` (written by code point to keep the text plain). -/
def eqChar : Char := Char.ofNat 61

/-- The double-quote character. -/
def dquoteChar : Char := Char.ofNat 34

/-- The single-quote character. -/
def squoteChar : Char := Char.ofNat 39

/-- `str.replace(c, '')`: remove every occurrence of the character. -/
def removeAll (c : Char) (l : List Char) : List Char := l.filter (fun a => a ≠ c)

/-- Drop every leading occurrence of the character. -/
def dropLeading (c : Char) : List Char → List Char
  | [] => []
  | a :: rest => if a = c then dropLeading c rest else a :: rest

/-- Python `str.strip(c)`: drop every occurrence of the character from both
ends. -/
def stripEnds (c : Char) (l : List Char) : List Char :=
  (dropLeading c (dropLeading c l).reverse).reverse

/-- The SKU normalization chain of `_clean_data` (lines 55-59): remove all `=`,
strip double quotes from the ends, strip single quotes from the ends, then
remove any remaining double quotes. -/
def normalizeSku (s : String) : String :=
  String.mk (removeAll dquoteChar (stripEnds squoteChar (stripEnds dquoteChar
    (removeAll eqChar s.data))))

/-- The structured report returned by `analyze_assembly_capacity`
(lines 258-268). -/
structure AnalysisResult where
  assemblyReady : List AssemblyCandidate
  cannotAssemble : List UnassemblableCandidate
  transferRecommendations : List TransferCandidate
  totalProductsAnalyzed : ℕ
  readyCount : ℕ
  cannotCount : ℕ
  transferCount : ℕ
deriving DecidableEq

/-- `analyze_assembly_capacity` (lines 71-268): evaluate every distinct BOM
product, sort the ready list by descending priority, attach the transfer
analysis and the summary counts. -/
def analyzeAssemblyCapacity (A : List InventoryRecord) (S : List SalesRecord)
    (B : List BomEntry) : AnalysisResult :=
  let products := uniqueKeepOrder (B.map (·.productSku))
  let outcomes := products.map (evaluateProduct A S B)
  let ready := sortReady (outcomes.filterMap readyOf)
  let blocked := outcomes.filterMap blockedOf
  let transfers := analyzeTransferNeeds A S
  { assemblyReady := ready
    cannotAssemble := blocked
    transferRecommendations := transfers
    totalProductsAnalyzed := products.length
    readyCount := ready.length
    cannotCount := blocked.length
    transferCount := transfers.length }

/-- Modelled from the spec's words (§4.3 step 6), for refinement comparison
against `recommendQty`: recommended build quantity with `ceil` applied to the
target-inventory gap. -/
def specCeilRecommend (daily stock : ℚ) (m : ℤ) : ℤ :=
  min (max 1 (Int.ceil (TARGET_DAYS_INVENTORY * daily - stock))) m

/-- Modelled from the spec's words (§4.5), for refinement comparison against
`transferForItem`: transfer need clamped to the interval
`[1, secondary_stock]`. -/
def specTransferClamped (daily mainQty secondary : ℚ) : ℚ :=
  min (max (TARGET_DAYS_INVENTORY * daily - mainQty) 1) secondary

-- Concrete tables used to instantiate the theorems below.

/-- Scenario A inventory: 10 units of C1 and 6 of C2. -/
def invScenA : List InventoryRecord :=
  [⟨"C1", "Z", 0, 10, "c1"⟩, ⟨"C2", "Z", 0, 6, "c2"⟩]

/-- Scenario A BOM: product P requires 2 of C1 and 3 of C2. -/
def bomScenA : List BomEntry := [⟨"P", "C1", 2⟩, ⟨"P", "C2", 3⟩]

/-- One component with ample stock, for the quantity-bound instance. -/
def invQty : List InventoryRecord := [⟨"C", "Z", 0, 10, "comp"⟩]

/-- BOM for the quantity-bound instance. -/
def bomQty : List BomEntry := [⟨"P", "C", 1⟩]

/-- The candidate the analysis emits on `invQty`/`bomQty` with no sales data. -/
def readyQty : AssemblyCandidate := ⟨"P", "Unknown", 1, 0, 1, 0, 10, 1⟩

/-- Inventory for the truncation-vs-ceiling input: 100 units of component C. -/
def invTrunc : List InventoryRecord := [⟨"C", "Z", 0, 100, "c"⟩]

/-- Sales for the truncation input: 2.5 units of P per month. -/
def salesTrunc : List SalesRecord := [⟨"P", 5/2⟩]

/-- BOM for the truncation input: P takes one C. -/
def bomTrunc : List BomEntry := [⟨"P", "C", 1⟩]

/-- The candidate emitted on the truncation input. -/
def readyTrunc : AssemblyCandidate := ⟨"P", "Unknown", 2, 0, 5/2, 0, 100, 1⟩

/-- Ranking input: product A is oversold by one unit, product B is at zero
stock with a very large demand. -/
def invRank : List InventoryRecord :=
  [⟨"A", "NC - Main", 0, -1, "a"⟩, ⟨"CA", "Z", 0, 1, "ca"⟩, ⟨"CB", "Z", 0, 600, "cb"⟩]

/-- Ranking input sales: A sells 1 per month, B sells 18000 per month. -/
def salesRank : List SalesRecord := [⟨"A", 1⟩, ⟨"B", 18000⟩]

/-- Ranking input BOM: one component each. -/
def bomRank : List BomEntry := [⟨"A", "CA", 1⟩, ⟨"B", "CB", 1⟩]

/-- A negative-stock candidate with small scores. -/
def candNeg : AssemblyCandidate := ⟨"A", "a", 1, -1, 1, 0, 1, 1⟩

/-- A zero-stock candidate with small scores. -/
def candZero : AssemblyCandidate := ⟨"B", "b", 1, 0, 1, 0, 1, 1⟩

/-- An armory row holding half a unit, with no sales data anywhere. -/
def invHalf : List InventoryRecord := [⟨"X", "NC - Armory", 0, 1/2, "x"⟩]

/-- An armory row holding four units, with no sales data anywhere. -/
def invFour : List InventoryRecord := [⟨"Y", "NC - Armory", 0, 4, "y"⟩]

/-- The transfer candidate emitted on `invFour` with no sales. -/
def transFour : TransferCandidate := ⟨"Y", "y", 4, 0, 0, 0, 4⟩

/-- An armory row holding five units whose SKU sells half a unit per month. -/
def invSlow : List InventoryRecord := [⟨"X", "NC - Armory", 0, 5, "x"⟩]

/-- Sales of half a unit per month for the slow SKU. -/
def salesSlow : List SalesRecord := [⟨"X", 1/2⟩]

/-- Transfer instance: seven units in the armory, two in main, thirty sold per
month. -/
def armoryFast : InventoryRecord := ⟨"T", "NC - Armory", 0, 7, "t"⟩

/-- Inventory holding `armoryFast` plus the main-location stock of T. -/
def invFast : List InventoryRecord := [armoryFast, ⟨"T", "NC - Main", 0, 2, "t"⟩]

/-- Sales of thirty per month for T. -/
def salesFast : List SalesRecord := [⟨"T", 30⟩]

/-- The transfer candidate emitted for `armoryFast`. -/
def transFast : TransferCandidate := ⟨"T", "t", 7, 2, 30, 2, 7⟩

/-- Scenario B inventory: nine units of component K. -/
def invScenB : List InventoryRecord := [⟨"K", "Z", 0, 9, "k"⟩]

/-- Scenario B BOM: product Q takes three K. -/
def bomScenB : List BomEntry := [⟨"Q", "K", 3⟩]

/-- Inventory for the nominal-velocity instance: eight units of component D. -/
def invNominal : List InventoryRecord := [⟨"D", "Z", 0, 8, "d"⟩]

/-- BOM for the nominal-velocity instance: P takes two D. -/
def bomNominal : List BomEntry := [⟨"P", "D", 2⟩]

/-- The candidate emitted on the nominal-velocity instance. -/
def readyNominal : AssemblyCandidate := ⟨"P", "Unknown", 1, 0, 1, 0, 4, 1⟩

-- Helper lemmas about the embedding, shared by the claim theorems.

/-- Insertion preserves membership. -/
theorem mem_insertOrd {α : Type} (lt : α → α → Bool) (x a : α) (l : List α) :
    a ∈ insertOrd lt x l ↔ a = x ∨ a ∈ l := by
  induction l with
  | nil => simp [insertOrd]
  | cons y ys ih =>
    simp only [insertOrd]
    split
    · simp [List.mem_cons]
    · simp only [List.mem_cons, ih]
      tauto

/-- Folding insertions preserves membership. -/
theorem mem_foldl_insertOrd {α : Type} (lt : α → α → Bool) (a : α) (l : List α) :
    ∀ acc : List α, (a ∈ l.foldl (fun acc x => insertOrd lt x acc) acc ↔ a ∈ acc ∨ a ∈ l) := by
  induction l with
  | nil => intro acc; simp
  | cons x xs ih =>
    intro acc
    simp only [List.foldl_cons, ih, mem_insertOrd, List.mem_cons]
    tauto

/-- The stable sort is a permutation as far as membership is concerned. -/
theorem mem_sortOrd {α : Type} (lt : α → α → Bool) (a : α) (l : List α) :
    a ∈ sortOrd lt l ↔ a ∈ l := by
  simp [sortOrd, mem_foldl_insertOrd]

/-- Whatever the velocity branch, the recommended quantity is between 1 and
the buildable maximum once the maximum is positive. -/
theorem recommendQty_bounds (daily stock : ℚ) (m : ℤ) (hm : 0 < m) :
    1 ≤ recommendQty daily stock m ∧ recommendQty daily stock m ≤ m := by
  unfold recommendQty
  split
  · exact ⟨le_min (le_max_left 1 _) (by omega), min_le_right _ _⟩
  · exact ⟨le_min (by norm_num) (by omega), min_le_right _ _⟩

/-- Every velocity tuple the needs-assembly gate lets through carries a
strictly positive daily sales rate. -/
theorem velocityInfo_daily_pos (S : List SalesRecord) (stock : ℚ) (sku : String)
    (avg daily : ℚ) (days : Option ℚ)
    (h : velocityInfo S stock sku = some (avg, daily, days)) : 0 < daily := by
  simp only [velocityInfo] at h
  split_ifs at h with h1 h2 h3 <;> cases h
  · exact div_pos h1 (by norm_num)
  · norm_num

/-- When the rate is positive the recommendation comes from the target-days
formula with Python `int` truncation. -/
theorem recommendQty_of_pos (daily stock : ℚ) (m : ℤ) (h : 0 < daily) :
    recommendQty daily stock m
      = min (max 1 (pyInt (TARGET_DAYS_INVENTORY * daily - stock))) m := by
  unfold recommendQty
  rw [if_pos h]

/-- Inversion: everything that holds on the way to an `assembly_ready`
append. -/
theorem evaluateProduct_ready (A : List InventoryRecord) (S : List SalesRecord)
    (B : List BomEntry) (p : String) (c : AssemblyCandidate)
    (h : evaluateProduct A S B p = ProductResult.ready c) :
    ∃ avg daily days m,
      velocityInfo S (sumAvailableNCMain A p) p = some (avg, daily, days) ∧
      (checkComponents A (aggregateRequirements B p)).canAssemble = true ∧
      (checkComponents A (aggregateRequirements B p)).minAssemblies = some m ∧
      0 < m ∧ 0 < recommendQty daily (sumAvailableNCMain A p) m ∧
      c = mkReady p (productNameFor A p) avg days (sumAvailableNCMain A p) m
            (recommendQty daily (sumAvailableNCMain A p) m)
            (aggregateRequirements B p).length := by
  simp only [evaluateProduct] at h
  cases hv : velocityInfo S (sumAvailableNCMain A p) p with
  | none => rw [hv] at h; simp at h
  | some t =>
    obtain ⟨avg, daily, days⟩ := t
    rw [hv] at h
    dsimp only at h
    by_cases hr : aggregateRequirements B p = []
    · rw [if_pos hr] at h; simp at h
    · rw [if_neg hr] at h
      cases hm : (checkComponents A (aggregateRequirements B p)).minAssemblies with
      | none => rw [hm] at h; simp at h
      | some m =>
        rw [hm] at h
        dsimp only at h
        split_ifs at h with hfeas hq
        case pos =>
          obtain ⟨hca, hmpos⟩ := hfeas
          refine ⟨avg, daily, days, m, rfl, hca, rfl, hmpos, hq, ?_⟩
          injection h with h'
          exact h'.symm

/-- A satisfied component turns `checkStep` into a pure minimum update. -/
theorem checkStep_sat (A : List InventoryRecord) (st : FeasState) (r : String × ℚ)
    (hr : r.2 ≤ totalAvailable A r.1) :
    checkStep A st r =
      ⟨st.canAssemble, minFloorStep A st.minAssemblies r, st.missing⟩ := by
  unfold checkStep minFloorStep
  rw [if_neg (not_lt.mpr hr)]

/-- Folding the component check over satisfied requirements keeps the flag and
the shortage list and folds the floors. -/
theorem foldl_checkStep_sat (A : List InventoryRecord) (reqs : List (String × ℚ))
    (h : ∀ r ∈ reqs, r.2 ≤ totalAvailable A r.1) :
    ∀ st : FeasState, reqs.foldl (checkStep A) st =
      ⟨st.canAssemble, reqs.foldl (minFloorStep A) st.minAssemblies, st.missing⟩ := by
  induction reqs with
  | nil => intro st; rfl
  | cons r rs ih =>
    intro st
    have hr : r.2 ≤ totalAvailable A r.1 := h r (List.mem_cons_self r rs)
    have hrs : ∀ x ∈ rs, x.2 ≤ totalAvailable A x.1 := fun x hx => h x (List.mem_cons_of_mem r hx)
    simp only [List.foldl_cons, checkStep_sat A st r hr, ih hrs]

/-- When every aggregated component is satisfiable, the feasibility pass keeps
`can_assemble` true, reports no shortages, and computes exactly the minimum of
the per-component floors. -/
theorem checkComponents_sat (A : List InventoryRecord) (reqs : List (String × ℚ))
    (h : ∀ r ∈ reqs, r.2 ≤ totalAvailable A r.1) :
    checkComponents A reqs = ⟨true, minFloors A reqs, []⟩ :=
  foldl_checkStep_sat A reqs h ⟨true, none, []⟩

/-- Folding floors over a `some` accumulator stays `some`. -/
theorem foldl_minFloorStep_some (A : List InventoryRecord) (reqs : List (String × ℚ)) :
    ∀ k : ℤ, ∃ m : ℤ, reqs.foldl (minFloorStep A) (some k) = some m := by
  induction reqs with
  | nil => intro k; exact ⟨k, rfl⟩
  | cons r rs ih =>
    intro k
    simpa only [List.foldl_cons, minFloorStep] using ih _

/-- A nonempty requirement list always yields a minimum. -/
theorem minFloors_of_ne_nil (A : List InventoryRecord) (reqs : List (String × ℚ))
    (h : reqs ≠ []) : ∃ m : ℤ, minFloors A reqs = some m := by
  cases reqs with
  | nil => exact absurd rfl h
  | cons r rs =>
    simpa only [minFloors, List.foldl_cons, minFloorStep] using foldl_minFloorStep_some A rs _

/-- Every floor of a positive requirement with enough stock is at least 1, so
the folded minimum is at least 1. -/
theorem foldl_minFloorStep_pos (A : List InventoryRecord) (reqs : List (String × ℚ))
    (h : ∀ r ∈ reqs, 0 < r.2 ∧ r.2 ≤ totalAvailable A r.1) :
    ∀ acc : Option ℤ, (∀ k : ℤ, acc = some k → 1 ≤ k) →
      ∀ m : ℤ, reqs.foldl (minFloorStep A) acc = some m → 1 ≤ m := by
  induction reqs with
  | nil =>
    intro acc hacc m hm
    exact hacc m hm
  | cons r rs ih =>
    intro acc hacc m hm
    have hr := h r (List.mem_cons_self r rs)
    have hfloor : (1:ℤ) ≤ Int.floor (totalAvailable A r.1 / r.2) := by
      rw [Int.le_floor]
      exact_mod_cast (one_le_div hr.1).mpr hr.2
    have hrs : ∀ x ∈ rs, 0 < x.2 ∧ x.2 ≤ totalAvailable A x.1 :=
      fun x hx => h x (List.mem_cons_of_mem r hx)
    refine ih hrs (minFloorStep A acc r) ?_ m hm
    intro k hk
    unfold minFloorStep at hk
    cases acc with
    | none =>
      simp only [Option.some.injEq] at hk
      omega
    | some k0 =>
      simp only [Option.some.injEq] at hk
      have h0 := hacc k0 rfl
      have := min_le_left k0 (Int.floor (totalAvailable A r.1 / r.2))
      have := le_min h0 hfloor
      omega

/-- The satisfied minimum of floors is at least 1. -/
theorem minFloors_pos (A : List InventoryRecord) (reqs : List (String × ℚ))
    (h : ∀ r ∈ reqs, 0 < r.2 ∧ r.2 ≤ totalAvailable A r.1)
    (m : ℤ) (hm : minFloors A reqs = some m) : 1 ≤ m :=
  foldl_minFloorStep_pos A reqs h none (by intro k hk; cases hk) m hm

/-- `addReq` preserves positivity of all stored quantities. -/
theorem addReq_pos (sku : String) (q : ℚ) (hq : 0 < q) :
    ∀ l : List (String × ℚ), (∀ r ∈ l, 0 < r.2) → ∀ r ∈ addReq l sku q, 0 < r.2 := by
  intro l
  induction l with
  | nil =>
    intro _ r hr
    simp only [addReq, List.mem_singleton] at hr
    subst hr
    exact hq
  | cons p ps ih =>
    intro hl r hr
    obtain ⟨s, q0⟩ := p
    simp only [addReq] at hr
    split at hr
    · rcases List.mem_cons.mp hr with h1 | h1
      · subst h1
        have := hl (s, q0) (List.mem_cons_self _ _)
        exact add_pos this hq
      · exact hl r (List.mem_cons_of_mem _ h1)
    · rcases List.mem_cons.mp hr with h1 | h1
      · subst h1
        exact hl (s, q0) (List.mem_cons_self _ _)
      · exact ih (fun x hx => hl x (List.mem_cons_of_mem _ hx)) r h1

/-- Every aggregated requirement quantity is strictly positive. -/
theorem aggregateRequirements_pos (B : List BomEntry) (p : String) :
    ∀ r ∈ aggregateRequirements B p, 0 < r.2 := by
  unfold aggregateRequirements
  generalize B.filter (fun e => e.productSku == p) = l
  have main : ∀ (l : List BomEntry) (acc : List (String × ℚ)), (∀ r ∈ acc, 0 < r.2) →
      ∀ r ∈ l.foldl
        (fun acc e =>
          if e.quantity ≤ 0 then acc
          else if isServiceSku e.componentSku then acc
          else addReq acc e.componentSku e.quantity) acc, 0 < r.2 := by
    intro l
    induction l with
    | nil => intro acc hacc r hr; exact hacc r hr
    | cons e es ih =>
      intro acc hacc r hr
      simp only [List.foldl_cons] at hr
      by_cases h0 : e.quantity ≤ 0
      · rw [if_pos h0] at hr
        exact ih acc hacc r hr
      · rw [if_neg h0] at hr
        by_cases h1 : isServiceSku e.componentSku
        · rw [if_pos h1] at hr
          exact ih acc hacc r hr
        · rw [if_neg h1] at hr
          exact ih _ (addReq_pos e.componentSku e.quantity (not_le.mp h0) acc hacc) r hr
  exact main l [] (by intro r hr; cases hr)

/-- Forward evaluation: a product that passes the needs-assembly gate, has a
nonempty requirement mapping, and whose every component is satisfiable, is
emitted ready with the recommended quantity. -/
theorem evaluateProduct_sat_ready (A : List InventoryRecord) (S : List SalesRecord)
    (B : List BomEntry) (p : String) (avg daily : ℚ) (days : Option ℚ) (m : ℤ)
    (hv : velocityInfo S (sumAvailableNCMain A p) p = some (avg, daily, days))
    (hr : aggregateRequirements B p ≠ [])
    (hsat : ∀ r ∈ aggregateRequirements B p, r.2 ≤ totalAvailable A r.1)
    (hm : minFloors A (aggregateRequirements B p) = some m) :
    evaluateProduct A S B p = ProductResult.ready
      (mkReady p (productNameFor A p) avg days (sumAvailableNCMain A p) m
        (recommendQty daily (sumAvailableNCMain A p) m)
        (aggregateRequirements B p).length) := by
  have hmpos : 1 ≤ m :=
    minFloors_pos A _ (fun r hrq => ⟨aggregateRequirements_pos B p r hrq, hsat r hrq⟩) m hm
  have hq := recommendQty_bounds daily (sumAvailableNCMain A p) m (by omega)
  simp only [evaluateProduct]
  rw [hv]
  dsimp only
  rw [if_neg hr, checkComponents_sat A _ hsat]
  dsimp only
  rw [hm]
  dsimp only
  rw [if_pos ⟨rfl, by omega⟩, if_pos (by omega : (0:ℤ) < recommendQty daily (sumAvailableNCMain A p) m)]

/-- Claim C1: every emitted AssemblyCandidate recommends at least one unit and
no more than the buildable maximum. -/
theorem assemblyReady_quantity_bounds (A : List InventoryRecord) (S : List SalesRecord)
    (B : List BomEntry) (c : AssemblyCandidate)
    (hc : c ∈ (analyzeAssemblyCapacity A S B).assemblyReady) :
    1 ≤ c.quantityForAssembly ∧ c.quantityForAssembly ≤ c.maxPossibleAssemblies := by
  simp only [analyzeAssemblyCapacity, sortReady] at hc
  rw [mem_sortOrd, List.mem_filterMap] at hc
  obtain ⟨r, hr, hro⟩ := hc
  rw [List.mem_map] at hr
  obtain ⟨p, -, hep⟩ := hr
  have hready : evaluateProduct A S B p = ProductResult.ready c := by
    cases r with
    | ready c0 =>
      simp only [readyOf, Option.some.injEq] at hro
      rw [hep, hro]
    | skipped => simp [readyOf] at hro
    | blocked c0 => simp [readyOf] at hro
  obtain ⟨avg, daily, days, m, -, -, -, hmpos, -, hcEq⟩ :=
    evaluateProduct_ready A S B p c hready
  subst hcEq
  simpa [mkReady] using recommendQty_bounds daily (sumAvailableNCMain A p) m hmpos

/-- Claim C1 instance: the bound holds for the candidate emitted on a
one-component product with no sales data. -/
theorem assemblyReady_quantity_bounds_inst :
    1 ≤ readyQty.quantityForAssembly ∧
      readyQty.quantityForAssembly ≤ readyQty.maxPossibleAssemblies :=
  assemblyReady_quantity_bounds invQty [] bomQty readyQty (by decide)

/-- Claim C2: when every aggregated component requirement is satisfiable, the
pass stays feasible and `min_assemblies` is the minimum over required
components of the floor of available over required. -/
theorem maxAssemblies_eq_min_of_floors (A : List InventoryRecord) (B : List BomEntry)
    (p : String)
    (h : ∀ r ∈ aggregateRequirements B p, r.2 ≤ totalAvailable A r.1) :
    (checkComponents A (aggregateRequirements B p)).canAssemble = true ∧
    (checkComponents A (aggregateRequirements B p)).minAssemblies
      = minFloors A (aggregateRequirements B p) := by
  rw [checkComponents_sat A _ h]
  exact ⟨rfl, rfl⟩

/-- Claim C2 instance, scenario A: a BOM of 2 C1 and 3 C2 against 10 and 6
available yields a buildable maximum of 2. -/
theorem maxAssemblies_eq_min_of_floors_inst :
    ((checkComponents invScenA (aggregateRequirements bomScenA "P")).canAssemble = true ∧
      (checkComponents invScenA (aggregateRequirements bomScenA "P")).minAssemblies
        = minFloors invScenA (aggregateRequirements bomScenA "P")) ∧
    minFloors invScenA (aggregateRequirements bomScenA "P") = some 2 :=
  ⟨maxAssemblies_eq_min_of_floors invScenA bomScenA "P" (by decide), by decide⟩

/-- Claim C3 counterexample: a product selling 2.5 units a month with zero
stock and a buildable maximum of 100 is emitted with quantity 2 — the Python
`int` truncation of 2.5 — while the claimed formula
`min(max(1, ceil(target gap)), max)` evaluates to 3 on the same numbers. -/
theorem recommend_ceiling_counterexample :
    (analyzeAssemblyCapacity invTrunc salesTrunc bomTrunc).assemblyReady.map
        (·.quantityForAssembly) = [2] ∧
    specCeilRecommend ((5/2) / 30) 0 100 = 3 :=
  ⟨by decide, by decide⟩

/-- Claim C3 amended: every emitted candidate's quantity is
`min(max(1, trunc(target-days × daily − stock)), buildable maximum)` with
truncation toward zero instead of the claimed ceiling; a computed
recommendation of 0 or less would still be discarded, the formula simply never
produces one. -/
theorem recommend_truncation (A : List InventoryRecord) (S : List SalesRecord)
    (B : List BomEntry) (p : String) (c : AssemblyCandidate) (avg daily : ℚ)
    (days : Option ℚ) (m : ℤ)
    (hv : velocityInfo S (sumAvailableNCMain A p) p = some (avg, daily, days))
    (hready : evaluateProduct A S B p = ProductResult.ready c)
    (hm : (checkComponents A (aggregateRequirements B p)).minAssemblies = some m) :
    c.quantityForAssembly
      = min (max 1 (pyInt (TARGET_DAYS_INVENTORY * daily - sumAvailableNCMain A p))) m := by
  obtain ⟨avg', daily', days', m', hv', -, hm', -, -, hcEq⟩ :=
    evaluateProduct_ready A S B p c hready
  rw [hv] at hv'
  injection hv' with hpair
  injection hpair with h1 hpair2
  injection hpair2 with h2 h3
  rw [hm] at hm'
  injection hm' with h4
  subst h2
  subst h4
  subst hcEq
  simp only [mkReady]
  exact recommendQty_of_pos daily (sumAvailableNCMain A p) m
    (velocityInfo_daily_pos S (sumAvailableNCMain A p) p avg daily days hv)

/-- Claim C3 amended instance: on the 2.5-per-month input the emitted quantity
matches the truncation formula. -/
theorem recommend_truncation_inst :
    readyTrunc.quantityForAssembly
      = min (max 1 (pyInt (TARGET_DAYS_INVENTORY * ((5/2) / 30)
          - sumAvailableNCMain invTrunc "P"))) 100 :=
  recommend_truncation invTrunc salesTrunc bomTrunc "P" readyTrunc (5/2) ((5/2) / 30)
    (some 0) 100 (by decide) (by decide) (by decide)

/-- Claim C4 counterexample: on this input the zero-stock candidate (600 units
recommended) sorts strictly above the negative-stock candidate, so negative
stock does not rank higher regardless of the other score components. -/
theorem priority_negative_stock_counterexample :
    (analyzeAssemblyCapacity invRank salesRank bomRank).assemblyReady.map
        (·.availableInNc) = [0, -1] := by decide

/-- Claim C4 amended: a negative-stock candidate outranks a zero-stock one
exactly up to the 500-point urgency margin: it is strictly higher whenever the
zero-stock candidate's quantity plus one tenth of its buildable maximum
exceeds the negative-stock candidate's by less than 500. -/
theorem priority_negative_vs_zero_margin (a b : AssemblyCandidate)
    (ha : a.availableInNc < 0) (hb : b.availableInNc = 0)
    (hmargin : (b.quantityForAssembly : ℚ) + (b.maxPossibleAssemblies : ℚ) * (1/10)
        < 500 + (a.quantityForAssembly : ℚ) + (a.maxPossibleAssemblies : ℚ) * (1/10)) :
    assemblyPriority b < assemblyPriority a := by
  unfold assemblyPriority
  rw [if_pos ha, if_neg (by omega : ¬ b.availableInNc < 0), if_pos hb]
  linarith

/-- Claim C4 amended instance: with small, equal other scores the negative
stock candidate wins. -/
theorem priority_negative_vs_zero_margin_inst :
    assemblyPriority candZero < assemblyPriority candNeg :=
  priority_negative_vs_zero_margin candNeg candZero (by decide) (by decide) (by decide)

/-- Inversion for the transfer loop: what every emitted candidate looks
like. -/
theorem transferForItem_some (A : List InventoryRecord) (S : List SalesRecord)
    (item : InventoryRecord) (c : TransferCandidate)
    (h : transferForItem A S item = some c) :
    0 < item.available ∧ c.qtyInArmory = pyInt item.available ∧
    ((0 < c.suggestedTransfer ∧
        c.suggestedTransfer
          = min (pyInt (TARGET_DAYS_INVENTORY * (avgFor S item.sku / 30)
              - mainQtyFor A item.sku)) (pyInt item.available)) ∨
      c.suggestedTransfer = min 10 (pyInt item.available)) := by
  simp only [transferForItem] at h
  split_ifs at h with h0 h1 h2 h3 h4 <;> cases h
  · exact ⟨not_le.mp h0, rfl, Or.inl ⟨h3, rfl⟩⟩
  · exact ⟨not_le.mp h0, rfl, Or.inr rfl⟩

/-- Claim C5 counterexample: an armory row holding half a unit of a SKU with
no sales data and no main-location stock is emitted with
`suggested_transfer = min(10, int(0.5)) = 0`, violating the claimed strict
positivity. -/
theorem transfer_positive_counterexample :
    (analyzeTransferNeeds invHalf []).map (·.suggestedTransfer) = [0] := by decide

/-- Claim C5 amended: every emitted TransferCandidate satisfies
`0 ≤ suggested_transfer ≤ qty_in_armory`; strict positivity holds for the
velocity branch but can fail in the no-velocity fallback when the secondary
stock is below one unit. -/
theorem transfer_suggestion_bounds (A : List InventoryRecord) (S : List SalesRecord)
    (c : TransferCandidate) (hc : c ∈ analyzeTransferNeeds A S) :
    0 ≤ c.suggestedTransfer ∧ c.suggestedTransfer ≤ c.qtyInArmory := by
  simp only [analyzeTransferNeeds] at hc
  rw [mem_sortOrd, List.mem_filterMap] at hc
  obtain ⟨item, -, hsome⟩ := hc
  obtain ⟨hpos, harm, hcases⟩ := transferForItem_some A S item c hsome
  have harmnn : 0 ≤ pyInt item.available := by
    unfold pyInt
    rw [if_neg (not_lt.mpr (le_of_lt hpos))]
    exact Int.floor_nonneg.mpr (le_of_lt hpos)
  rcases hcases with ⟨hq, hqe⟩ | hqe
  · exact ⟨le_of_lt hq, by rw [hqe, harm]; exact min_le_right _ _⟩
  · rw [hqe, harm]
    exact ⟨le_min (by norm_num) harmnn, min_le_right _ _⟩

/-- Claim C5 amended instance: the fallback transfer of four armory units
respects the bounds. -/
theorem transfer_suggestion_bounds_inst :
    0 ≤ transFour.suggestedTransfer ∧
      transFour.suggestedTransfer ≤ transFour.qtyInArmory :=
  transfer_suggestion_bounds invFour [] transFour (by decide)

/-- Claim C6 counterexample: SKU X sells 0.5 a month, main stock is zero
(days of supply 0 < 30) and the armory holds five units, yet no transfer is
emitted because `min(int(0.5), int(5)) = 0`; the claimed clamp to
`[1, secondary]` evaluates to 1 and would have been emitted. -/
theorem transfer_clamp_counterexample :
    analyzeTransferNeeds invSlow salesSlow = [] ∧
    0 < avgFor salesSlow "X" ∧
    (0:ℚ) / ((1/2) / 30) < TARGET_DAYS_INVENTORY ∧
    specTransferClamped ((1/2) / 30) 0 5 = 1 :=
  ⟨by decide, by decide, by decide, by decide⟩

/-- Claim C6 amended: for an armory row with positive stock, the velocity
branch emits exactly when days-of-supply is below target and
`min(trunc(need), trunc(secondary))` is positive, with that minimum as the
quantity (no clamp up to 1); the no-velocity branch emits exactly when main
stock is zero, with quantity `min(10, trunc(secondary))`. -/
theorem transfer_branch_characterization (A : List InventoryRecord)
    (S : List SalesRecord) (r : InventoryRecord)
    (_hloc : r.location = "NC - Armory") (hpos : 0 < r.available) :
    (0 < avgFor S r.sku →
      transferForItem A S r =
        (if mainQtyFor A r.sku / (avgFor S r.sku / 30) < TARGET_DAYS_INVENTORY ∧
            0 < min (pyInt (TARGET_DAYS_INVENTORY * (avgFor S r.sku / 30)
                - mainQtyFor A r.sku)) (pyInt r.available)
          then some ⟨r.sku, r.productName, pyInt r.available, pyInt (mainQtyFor A r.sku),
                pyRound (avgFor S r.sku) 2,
                pyRound (mainQtyFor A r.sku / (avgFor S r.sku / 30)) 1,
                min (pyInt (TARGET_DAYS_INVENTORY * (avgFor S r.sku / 30)
                  - mainQtyFor A r.sku)) (pyInt r.available)⟩
          else none)) ∧
    (¬ 0 < avgFor S r.sku →
      transferForItem A S r =
        (if mainQtyFor A r.sku = 0
          then some ⟨r.sku, r.productName, pyInt r.available, pyInt (mainQtyFor A r.sku),
                0, 0, min 10 (pyInt r.available)⟩
          else none)) := by
  constructor
  · intro havg
    simp only [transferForItem]
    rw [if_neg (not_le.mpr hpos), if_pos havg]
    by_cases hd : mainQtyFor A r.sku / (avgFor S r.sku / 30) < TARGET_DAYS_INVENTORY
    · by_cases hs : 0 < min (pyInt (TARGET_DAYS_INVENTORY * (avgFor S r.sku / 30)
          - mainQtyFor A r.sku)) (pyInt r.available)
      · rw [if_pos hd, if_pos hs, if_pos ⟨hd, hs⟩]
      · rw [if_pos hd, if_neg hs, if_neg (fun hcon => hs hcon.2)]
    · rw [if_neg hd, if_neg (fun hcon => hd hcon.1)]
  · intro havg
    simp only [transferForItem]
    rw [if_neg (not_le.mpr hpos), if_neg havg]
    by_cases hm0 : mainQtyFor A r.sku = 0
    · rw [if_pos ⟨hm0, hpos⟩, if_pos hm0]
    · rw [if_neg (fun hcon => hm0 hcon.1), if_neg hm0]

/-- Claim C6 amended instance: thirty monthly sales against two units in main
emit a transfer of the whole seven-unit armory stock. -/
theorem transfer_branch_characterization_inst :
    transferForItem invFast salesFast armoryFast = some transFast := by
  rw [(transfer_branch_characterization invFast salesFast armoryFast (by decide)
    (by decide)).1 (by decide)]
  decide

/-- Claim C7: a BOM product is evaluated further exactly when it needs
assembly — positive velocity with days of inventory below target, or no
positive velocity signal with at most five units of primary stock, in which
case a nominal 1/month velocity is installed; skipped products reach neither
bucket; and a no-sales zero-stock product with a fully satisfiable BOM is
emitted with a conservative quantity of at most 10 and at most the buildable
maximum. -/
theorem needs_assembly_characterization (A : List InventoryRecord)
    (S : List SalesRecord) (B : List BomEntry) (p : String) :
    ((velocityInfo S (sumAvailableNCMain A p) p).isSome = true ↔
      ((0 < avgFor S p ∧
          sumAvailableNCMain A p / (avgFor S p / 30) < TARGET_DAYS_INVENTORY) ∨
        (¬ 0 < avgFor S p ∧ sumAvailableNCMain A p ≤ 5))) ∧
    (velocityInfo S (sumAvailableNCMain A p) p = none →
      evaluateProduct A S B p = ProductResult.skipped) ∧
    (¬ 0 < avgFor S p → sumAvailableNCMain A p ≤ 5 →
      velocityInfo S (sumAvailableNCMain A p) p = some (1, 1/30, none)) ∧
    (¬ 0 < avgFor S p → sumAvailableNCMain A p = 0 →
      aggregateRequirements B p ≠ [] →
      (∀ r ∈ aggregateRequirements B p, r.2 ≤ totalAvailable A r.1) →
      (readyOf (evaluateProduct A S B p)).isSome = true ∧
      (∀ c : AssemblyCandidate, evaluateProduct A S B p = ProductResult.ready c →
        c.quantityForAssembly ≤ 10 ∧ c.quantityForAssembly ≤ c.maxPossibleAssemblies)) := by
  refine ⟨?_, ?_, ?_, ?_⟩
  · simp only [velocityInfo]
    split_ifs with h1 h2 h3
    · simp [h1, h2]
    · simp [h1, h2]
    · simp [h1, h3]
    · simp [h1, h3]
  · intro hnone
    simp only [evaluateProduct]
    rw [hnone]
  · intro h1 h2
    simp only [velocityInfo]
    rw [if_neg h1, if_pos h2]
  · intro h1 h2 h3 h4
    have hv : velocityInfo S (sumAvailableNCMain A p) p = some (1, 1/30, none) := by
      simp only [velocityInfo]
      rw [if_neg h1, if_pos (by rw [h2]; norm_num)]
    obtain ⟨m, hm⟩ := minFloors_of_ne_nil A _ h3
    have hmpos : 1 ≤ m :=
      minFloors_pos A _ (fun r hr => ⟨aggregateRequirements_pos B p r hr, h4 r hr⟩) m hm
    have heval := evaluateProduct_sat_ready A S B p 1 (1/30) none m hv h3 h4 hm
    have hqty : recommendQty (1/30) (sumAvailableNCMain A p) m = 1 := by
      rw [recommendQty_of_pos _ _ _ (by norm_num), h2]
      have e1 : TARGET_DAYS_INVENTORY * (1/30 : ℚ) - 0 = 1 := by
        norm_num [TARGET_DAYS_INVENTORY]
      have e2 : pyInt 1 = 1 := by
        unfold pyInt
        rw [if_neg (by norm_num)]
        exact Int.floor_one
      rw [e1, e2, max_self]
      exact min_eq_left hmpos
    constructor
    · rw [heval]
      rfl
    · intro c hc
      rw [heval] at hc
      injection hc with hc'
      rw [← hc']
      simp only [mkReady]
      rw [hqty]
      exact ⟨by norm_num, by omega⟩

/-- Claim C7 instance, scenario B: zero sales data, zero stock, satisfiable
BOM — the product is emitted, not skipped. -/
theorem needs_assembly_characterization_inst :
    (readyOf (evaluateProduct invScenB [] bomScenB "Q")).isSome = true :=
  ((needs_assembly_characterization invScenB [] bomScenB "Q").2.2.2 (by decide)
    (by decide) (by decide) (by decide)).1

/-- Claim C8: the analysis is a pure function of the three input tables —
equal inputs yield identical reports, ordering and summary included. -/
theorem analysis_deterministic (A A' : List InventoryRecord) (S S' : List SalesRecord)
    (B B' : List BomEntry) (hA : A = A') (hS : S = S') (hB : B = B') :
    analyzeAssemblyCapacity A S B = analyzeAssemblyCapacity A' S' B' := by
  subst hA
  subst hS
  subst hB
  rfl

/-- Claim C8 instance: re-running the analysis on the scenario-A tables gives
the same report. -/
theorem analysis_deterministic_inst :
    analyzeAssemblyCapacity invScenA [] bomScenA
      = analyzeAssemblyCapacity invScenA [] bomScenA :=
  analysis_deterministic invScenA invScenA [] [] bomScenA bomScenA rfl rfl rfl

/-- Removing a character from a list free of it changes nothing. -/
theorem removeAll_of_ne (c : Char) (l : List Char) (h : ∀ ch ∈ l, ch ≠ c) :
    removeAll c l = l := by
  unfold removeAll
  rw [List.filter_eq_self]
  intro a ha
  simpa using h a ha

/-- Removing a character drops a leading occurrence of it. -/
theorem removeAll_cons_self (c : Char) (l : List Char) :
    removeAll c (c :: l) = removeAll c l := by
  simp [removeAll]

/-- Removing a character keeps a different head. -/
theorem removeAll_cons_ne (c a : Char) (l : List Char) (h : a ≠ c) :
    removeAll c (a :: l) = a :: removeAll c l := by
  simp [removeAll, h]

/-- Removal distributes over append. -/
theorem removeAll_append (c : Char) (l1 l2 : List Char) :
    removeAll c (l1 ++ l2) = removeAll c l1 ++ removeAll c l2 := by
  simp [removeAll]

/-- Leading-strip of a list free of the character changes nothing. -/
theorem dropLeading_of_ne (c : Char) (l : List Char) (h : ∀ ch ∈ l, ch ≠ c) :
    dropLeading c l = l := by
  cases l with
  | nil => rfl
  | cons a t =>
    unfold dropLeading
    rw [if_neg (h a (List.mem_cons_self a t))]

/-- End-strip of a list free of the character changes nothing. -/
theorem stripEnds_of_ne (c : Char) (l : List Char) (h : ∀ ch ∈ l, ch ≠ c) :
    stripEnds c l = l := by
  unfold stripEnds
  rw [dropLeading_of_ne c l h,
    dropLeading_of_ne c l.reverse (fun ch hch => h ch (List.mem_reverse.mp hch)),
    List.reverse_reverse]

/-- End-strip removes one wrapping pair of the character around a clean
core. -/
theorem stripEnds_wrap (c : Char) (l : List Char) (h : ∀ ch ∈ l, ch ≠ c) :
    stripEnds c (c :: (l ++ [c])) = l := by
  unfold stripEnds
  have h1 : dropLeading c (c :: (l ++ [c])) = dropLeading c (l ++ [c]) := by
    simp [dropLeading]
  rw [h1]
  cases l with
  | nil => simp [dropLeading]
  | cons a t =>
    have ha : a ≠ c := h a (List.mem_cons_self a t)
    have h2 : dropLeading c ((a :: t) ++ [c]) = (a :: t) ++ [c] := by
      simp only [List.cons_append, dropLeading]
      rw [if_neg ha]
      rfl
    have h3 : ((a :: t) ++ [c]).reverse = c :: (a :: t).reverse := by
      simp
    have h4 : dropLeading c (c :: (a :: t).reverse) = dropLeading c ((a :: t).reverse) := by
      simp [dropLeading]
    rw [h2, h3, h4,
      dropLeading_of_ne c (a :: t).reverse (fun ch hch => h ch (List.mem_reverse.mp hch)),
      List.reverse_reverse]

/-- Claim C9: the cleaning chain strips a leading equals sign and surrounding
single or double quotes from any SKU whose own characters carry none of those
artifacts, so the spreadsheet-export forms all normalize back to the plain
SKU. -/
theorem sku_normalization_strips_artifacts (s : List Char)
    (h : ∀ ch ∈ s, ch ≠ eqChar ∧ ch ≠ dquoteChar ∧ ch ≠ squoteChar) :
    normalizeSku (String.mk (eqChar :: dquoteChar :: (s ++ [dquoteChar]))) = String.mk s ∧
    normalizeSku (String.mk (squoteChar :: (s ++ [squoteChar]))) = String.mk s ∧
    normalizeSku (String.mk (eqChar :: s)) = String.mk s ∧
    normalizeSku (String.mk s) = String.mk s := by
  have hs_eq : ∀ ch ∈ s, ch ≠ eqChar := fun ch hch => (h ch hch).1
  have hs_dq : ∀ ch ∈ s, ch ≠ dquoteChar := fun ch hch => (h ch hch).2.1
  have hs_sq : ∀ ch ∈ s, ch ≠ squoteChar := fun ch hch => (h ch hch).2.2
  refine ⟨?_, ?_, ?_, ?_⟩
  · apply congrArg String.mk
    show removeAll dquoteChar (stripEnds squoteChar (stripEnds dquoteChar
      (removeAll eqChar (eqChar :: dquoteChar :: (s ++ [dquoteChar]))))) = s
    rw [removeAll_cons_self, removeAll_cons_ne _ _ _ (by decide), removeAll_append,
      removeAll_of_ne _ _ hs_eq, removeAll_cons_ne _ _ _ (by decide)]
    show removeAll dquoteChar (stripEnds squoteChar (stripEnds dquoteChar
      (dquoteChar :: (s ++ [dquoteChar])))) = s
    rw [stripEnds_wrap _ _ hs_dq, stripEnds_of_ne _ _ hs_sq, removeAll_of_ne _ _ hs_dq]
  · apply congrArg String.mk
    show removeAll dquoteChar (stripEnds squoteChar (stripEnds dquoteChar
      (removeAll eqChar (squoteChar :: (s ++ [squoteChar]))))) = s
    have hclean : ∀ ch ∈ squoteChar :: (s ++ [squoteChar]), ch ≠ eqChar := by
      intro ch hch
      rcases List.mem_cons.mp hch with h1 | h1
      · subst h1; decide
      · rcases List.mem_append.mp h1 with h2 | h2
        · exact hs_eq ch h2
        · rw [List.mem_singleton.mp h2]; decide
    have hcleandq : ∀ ch ∈ squoteChar :: (s ++ [squoteChar]), ch ≠ dquoteChar := by
      intro ch hch
      rcases List.mem_cons.mp hch with h1 | h1
      · subst h1; decide
      · rcases List.mem_append.mp h1 with h2 | h2
        · exact hs_dq ch h2
        · rw [List.mem_singleton.mp h2]; decide
    rw [removeAll_of_ne _ _ hclean, stripEnds_of_ne _ _ hcleandq,
      stripEnds_wrap _ _ hs_sq, removeAll_of_ne _ _ hs_dq]
  · apply congrArg String.mk
    show removeAll dquoteChar (stripEnds squoteChar (stripEnds dquoteChar
      (removeAll eqChar (eqChar :: s)))) = s
    rw [removeAll_cons_self, removeAll_of_ne _ _ hs_eq, stripEnds_of_ne _ _ hs_dq,
      stripEnds_of_ne _ _ hs_sq, removeAll_of_ne _ _ hs_dq]
  · apply congrArg String.mk
    show removeAll dquoteChar (stripEnds squoteChar (stripEnds dquoteChar
      (removeAll eqChar s))) = s
    rw [removeAll_of_ne _ _ hs_eq, stripEnds_of_ne _ _ hs_dq,
      stripEnds_of_ne _ _ hs_sq, removeAll_of_ne _ _ hs_dq]

/-- Claim C9 instance: the export artifact around 1590 normalizes to the plain
SKU 1590, which equals the inventory-side SKU string. -/
theorem sku_normalization_strips_artifacts_inst :
    normalizeSku (String.mk (eqChar :: dquoteChar :: (['1', '5', '9', '0'] ++ [dquoteChar])))
        = String.mk ['1', '5', '9', '0'] ∧
      String.mk ['1', '5', '9', '0'] = "1590" :=
  ⟨(sku_normalization_strips_artifacts ['1', '5', '9', '0'] (by decide)).1, by decide⟩

/-- Claim C10: every velocity tuple reaching the recommendation step has a
strictly positive daily rate — no-sales products carry the nominal 1/month —
so the recommendation always comes from the target-days formula and the
flat `min(10, max)` fallback is unreachable; in particular a no-sales,
zero-stock product is emitted with quantity 1, not 10. -/
theorem daily_rate_positive_no_fallback (A : List InventoryRecord)
    (S : List SalesRecord) (B : List BomEntry) (p : String) (avg daily : ℚ)
    (days : Option ℚ)
    (hv : velocityInfo S (sumAvailableNCMain A p) p = some (avg, daily, days)) :
    0 < daily ∧
    (∀ m : ℤ, recommendQty daily (sumAvailableNCMain A p) m
        = min (max 1 (pyInt (TARGET_DAYS_INVENTORY * daily - sumAvailableNCMain A p))) m) ∧
    (¬ 0 < avgFor S p → sumAvailableNCMain A p = 0 →
      ∀ c : AssemblyCandidate, evaluateProduct A S B p = ProductResult.ready c →
        c.quantityForAssembly = 1) := by
  have hd := velocityInfo_daily_pos S _ p avg daily days hv
  refine ⟨hd, fun m => recommendQty_of_pos daily _ m hd, ?_⟩
  intro h1 h2 c hc
  have hv2 : velocityInfo S (sumAvailableNCMain A p) p = some (1, 1/30, none) := by
    simp only [velocityInfo]
    rw [if_neg h1, if_pos (by rw [h2]; norm_num)]
  obtain ⟨avg', daily', days', m', hv', -, -, hmpos', -, hcEq⟩ :=
    evaluateProduct_ready A S B p c hc
  rw [hv2] at hv'
  injection hv' with hp'
  injection hp' with ha' hp2'
  injection hp2' with hdv' hds'
  rw [hcEq]
  simp only [mkReady]
  rw [← hdv', h2, recommendQty_of_pos _ _ _ (by norm_num)]
  have e1 : TARGET_DAYS_INVENTORY * (1/30 : ℚ) - 0 = 1 := by
    norm_num [TARGET_DAYS_INVENTORY]
  have e2 : pyInt 1 = 1 := by
    unfold pyInt
    rw [if_neg (by norm_num)]
    exact Int.floor_one
  rw [e1, e2, max_self]
  exact min_eq_left (by omega)

/-- Claim C10 instance: the no-sales zero-stock product on `invNominal` gets
quantity 1. -/
theorem daily_rate_positive_no_fallback_inst :
    readyNominal.quantityForAssembly = 1 :=
  (daily_rate_positive_no_fallback invNominal [] bomNominal "P" 1 (1/30) none
    (by decide)).2.2 (by decide) (by decide) readyNominal (by decide)

end DBI
